import Mathlib

/-!
Verification of the fixed-size generational arena (`src/lib.rs`).

The Rust library is shallowly embedded: machine `usize` values become `Nat`
(the generation counter starts at 1 and only grows; `checked_add` overflow is
a panic in the source and unreachable over `Nat`), panics become `Option.none`
results, and Rust's `Result<GenerationIndex, T>` becomes `GenerationIndex ⊕ T`.
Mutation through the `&mut T` returned by `get_mut` is modelled as an explicit
`write_mut` operation. Reachable arena states are those produced by running a
list of operations from a freshly constructed arena.
-/

namespace GenArena

/-- Mirrors `GenerationIndex` in the source: a composite key of a slot
position and the generation at insertion time. -/
structure GenerationIndex where
  index : Nat
  generation : Nat
deriving DecidableEq

/-- Mirrors `Slot<T>`: `Free` holds an optional link to the next free slot;
`Occupied` holds the stamped generation and the value. -/
inductive Slot (T : Type) where
  | Free (next_free : Option Nat)
  | Occupied (generation : Nat) (value : T)
deriving DecidableEq

/-- Mirrors `GenerationalArena<T, ELEMENTS_COUNT>`: the slot vector, the head
of the intrusive free list, the arena-wide generation counter, and the live
count `len`. The capacity `ELEMENTS_COUNT` is passed explicitly to the
operations that mention it (`new`, `remove`). -/
structure GenerationalArena (T : Type) where
  items : List (Slot T)
  free_list_head : Option Nat
  generation : Nat
  len : Nat
deriving DecidableEq

variable {T : Type}

/-- Mirrors `initialize_slots`: slot `i` is `Free` linking to `i + 1`, and the
last slot (`i == ELEMENTS_COUNT - 1`) links to `None`. -/
def initialize_slots (T : Type) (N : Nat) : List (Slot T) :=
  (List.range N).map fun i =>
    if i = N - 1 then Slot.Free none else Slot.Free (some (i + 1))

/-- Mirrors `new`: asserts `ELEMENTS_COUNT > 0` (modelled as `none` on
failure), builds the slot vector via `initialize_slots`, sets the free-list
head to slot 0, the generation counter to 1 and the live count to 0. -/
def new (T : Type) (N : Nat) : Option (GenerationalArena T) :=
  if N = 0 then none
  else some
    { items := initialize_slots T N
      free_list_head := some 0
      generation := 1
      len := 0 }

/-- Mirrors `try_insert`. Outer `none` is a panic: either the indexing
`self.items[i]` is out of bounds or the popped slot is `Occupied`
(`panic!("corrupt free list")`). `Sum.inr value` is Rust's `Err(value)`
(capacity exhausted, value handed back); `Sum.inl` is `Ok(handle)`. -/
def try_insert (a : GenerationalArena T) (value : T) :
    Option ((GenerationIndex ⊕ T) × GenerationalArena T) :=
  match a.free_list_head with
  | none => some (Sum.inr value, a)
  | some i =>
    match a.items[i]? with
    | none => none
    | some (Slot.Occupied _ _) => none
    | some (Slot.Free next_free) =>
      some (Sum.inl ⟨i, a.generation⟩,
        { items := a.items.set i (Slot.Occupied a.generation value)
          free_list_head := next_free
          generation := a.generation
          len := a.len + 1 })

/-- Mirrors `remove`. Outer `none` is a panic: the
`assert!(generation_index.index < ELEMENTS_COUNT)` failing, or the indexing
`self.items[generation_index.index]` being out of bounds. On a matching
occupied slot: the slot is swapped to `Free` linking to the old free-list
head, the generation counter is advanced by 1, the head becomes this slot,
the live count drops by 1, and the value is returned. Otherwise
`some (none, a)`: a no-op query returning `None`. -/
def remove (N : Nat) (a : GenerationalArena T) (gi : GenerationIndex) :
    Option (Option T × GenerationalArena T) :=
  if gi.index < N then
    match a.items[gi.index]? with
    | some (Slot.Occupied g v) =>
      if gi.generation = g then
        some (some v,
          { items := a.items.set gi.index (Slot.Free a.free_list_head)
            free_list_head := some gi.index
            generation := a.generation + 1
            len := a.len - 1 })
      else some (none, a)
    | some (Slot.Free _) => some (none, a)
    | none => none
  else none

/-- Mirrors `capacity`: returns the live count `len`, not the slot count. -/
def capacity (a : GenerationalArena T) : Nat :=
  a.len

/-- Mirrors `get`: a checked lookup via `self.items.get(..)` (never panics),
returning the value only when the slot is `Occupied` with the handle's
generation. -/
def get (a : GenerationalArena T) (gi : GenerationIndex) : Option T :=
  match a.items[gi.index]? with
  | some (Slot.Occupied g v) => if g = gi.generation then some v else none
  | _ => none

/-- Mirrors `get_mut`'s lookup, which is textually identical to `get` apart
from mutability. -/
def get_mut (a : GenerationalArena T) (gi : GenerationIndex) : Option T :=
  match a.items[gi.index]? with
  | some (Slot.Occupied g v) => if g = gi.generation then some v else none
  | _ => none

/-- Mirrors `contains`: `self.get(generation_index).is_some()`. -/
def contains (a : GenerationalArena T) (gi : GenerationIndex) : Bool :=
  (get a gi).isSome

/-- Models writing a value through the `&mut T` returned by `get_mut`: when
`get_mut` returns a reference (occupied slot, matching generation) the value
is replaced in place, the generation tag and all bookkeeping untouched;
otherwise there is no reference to write through and the arena is unchanged. -/
def write_mut (a : GenerationalArena T) (gi : GenerationIndex) (v : T) :
    GenerationalArena T :=
  match a.items[gi.index]? with
  | some (Slot.Occupied g _) =>
    if g = gi.generation then
      { a with items := a.items.set gi.index (Slot.Occupied g v) }
    else a
  | _ => a

/-- One public operation on the arena, for describing arbitrary interleaved
usage: insertion, removal, a write through `get_mut`, and the pure queries
`get`, `get_mut` (lookup only) and `contains`. -/
inductive Op (T : Type) where
  | ins (v : T)
  | rem (gi : GenerationIndex)
  | wr (gi : GenerationIndex) (v : T)
  | qget (gi : GenerationIndex)
  | qget_mut (gi : GenerationIndex)
  | qcontains (gi : GenerationIndex)
deriving DecidableEq

/-- The state after one operation; `none` when the operation panics. The pure
queries never panic and leave the state unchanged. -/
def step (N : Nat) (a : GenerationalArena T) : Op T → Option (GenerationalArena T)
  | Op.ins v => (try_insert a v).map Prod.snd
  | Op.rem gi => (remove N a gi).map Prod.snd
  | Op.wr gi v => some (write_mut a gi v)
  | Op.qget _ => some a
  | Op.qget_mut _ => some a
  | Op.qcontains _ => some a

/-- Runs a list of operations from a state, propagating panics. -/
def run (N : Nat) (a : GenerationalArena T) : List (Op T) → Option (GenerationalArena T)
  | [] => some a
  | op :: ops =>
    match step N a op with
    | none => none
    | some a' => run N a' ops

/-- A state is reachable when some operation sequence produces it from a
freshly constructed arena of capacity `N`. -/
def Reachable (N : Nat) (a : GenerationalArena T) : Prop :=
  ∃ a0 ops, new T N = some a0 ∧ run N a0 ops = some a

/-- The number of `Occupied` slots in a slot vector. -/
def countOccupied : List (Slot T) → Nat
  | [] => 0
  | Slot.Free _ :: rest => countOccupied rest
  | Slot.Occupied _ _ :: rest => countOccupied rest + 1

/-- `FreeChain items head fl`: starting from `head`, following the `next_free`
links visits exactly the indices in `fl` and ends at `none`. -/
def FreeChain (items : List (Slot T)) : Option Nat → List Nat → Prop
  | head, [] => head = none
  | head, i :: rest =>
    head = some i ∧
      ∃ nf, items[i]? = some (Slot.Free nf) ∧ FreeChain items nf rest

/-- The internal consistency invariant of a reachable arena: the slot vector
has exactly `N` slots, every occupied slot's stamped generation is at most the
arena's counter, `len` counts the occupied slots, and the free list is a
duplicate-free chain through `Free` slots that covers every `Free` slot. -/
def Inv (N : Nat) (a : GenerationalArena T) : Prop :=
  a.items.length = N ∧
  (∀ (i g : Nat) (v : T), a.items[i]? = some (Slot.Occupied g v) → g ≤ a.generation) ∧
  a.len = countOccupied a.items ∧
  ∃ fl : List Nat, FreeChain a.items a.free_list_head fl ∧ fl.Nodup ∧
    ∀ (j : Nat) (nf : Option Nat), a.items[j]? = some (Slot.Free nf) → j ∈ fl

/-- A handle is stale in a state: the lookup misses and the handle's
generation is strictly below the arena's counter. Staleness is preserved by
every operation, which is the heart of the tombstone property. -/
def Stale (a : GenerationalArena T) (gi : GenerationIndex) : Prop :=
  get a gi = none ∧ gi.generation < a.generation

/-- The shape of an arena obtained from `new` after `j` straight insertions
with no removals: the free-list head sits at slot `j` (exhausted once
`j = N`), and every slot from `j` up is still in its initial free-linked
form. -/
def FreshInserted (N j : Nat) (a : GenerationalArena T) : Prop :=
  a.items.length = N ∧
  a.free_list_head = (if j < N then some j else none) ∧
  ∀ i, j ≤ i → i < N →
    a.items[i]? = some (Slot.Free (if i = N - 1 then none else some (i + 1)))

/-- Folds `try_insert` over a list of values, requiring every insertion to
succeed; `none` when one fails (capacity exhausted) or panics. -/
def insert_seq (a : GenerationalArena T) : List T → Option (GenerationalArena T)
  | [] => some a
  | v :: vs =>
    match try_insert a v with
    | some (Sum.inl _, a') => insert_seq a' vs
    | _ => none

/-- Concrete test state: the freshly constructed one-slot arena over `Nat`. -/
def arena1 : GenerationalArena Nat :=
  { items := [Slot.Free none], free_list_head := some 0, generation := 1, len := 0 }

/-- Concrete test state: `arena1` after `try_insert 42` (handle `⟨0, 1⟩`). -/
def arena1ins : GenerationalArena Nat :=
  { items := [Slot.Occupied 1 42], free_list_head := none, generation := 1, len := 1 }

/-- Concrete test state: `arena1ins` after `remove ⟨0, 1⟩` returned 42. -/
def arena1rem : GenerationalArena Nat :=
  { items := [Slot.Free none], free_list_head := some 0, generation := 2, len := 0 }

/-- Concrete test state: `arena1rem` after re-inserting 5 into the reused
slot 0 (handle `⟨0, 2⟩`). -/
def arena1reins : GenerationalArena Nat :=
  { items := [Slot.Occupied 2 5], free_list_head := none, generation := 2, len := 1 }

/-- Concrete test state: the freshly constructed two-slot arena over `Nat`. -/
def arena2 : GenerationalArena Nat :=
  { items := [Slot.Free (some 1), Slot.Free none], free_list_head := some 0
    generation := 1, len := 0 }

theorem getElem_some_lt {α : Type _} {l : List α} {i : Nat} {a : α}
    (h : l[i]? = some a) : i < l.length :=
  (List.getElem?_eq_some.mp h).1

theorem countOccupied_set_free_occ {items : List (Slot T)} :
    ∀ {i : Nat} {nf : Option Nat} (g : Nat) (v : T),
      items[i]? = some (Slot.Free nf) →
      countOccupied (items.set i (Slot.Occupied g v)) = countOccupied items + 1 := by
  induction items with
  | nil => intro i nf g v h; simp at h
  | cons s rest ih =>
    intro i nf g v h
    cases i with
    | zero =>
      simp only [List.getElem?_cons_zero, Option.some.injEq] at h
      subst h
      simp [countOccupied]
    | succ n =>
      simp only [List.getElem?_cons_succ] at h
      cases s <;> simp [countOccupied, List.set, ih g v h]

theorem countOccupied_set_occ_free {items : List (Slot T)} :
    ∀ {i : Nat} {g : Nat} {v : T} (nf : Option Nat),
      items[i]? = some (Slot.Occupied g v) →
      countOccupied items = countOccupied (items.set i (Slot.Free nf)) + 1 := by
  induction items with
  | nil => intro i g v nf h; simp at h
  | cons s rest ih =>
    intro i g v nf h
    cases i with
    | zero =>
      simp only [List.getElem?_cons_zero, Option.some.injEq] at h
      subst h
      simp [countOccupied]
    | succ n =>
      simp only [List.getElem?_cons_succ] at h
      cases s <;> simp [countOccupied, List.set, ih nf h]

theorem countOccupied_set_occ_occ {items : List (Slot T)} :
    ∀ {i : Nat} {g : Nat} {v : T} (g' : Nat) (v' : T),
      items[i]? = some (Slot.Occupied g v) →
      countOccupied (items.set i (Slot.Occupied g' v')) = countOccupied items := by
  induction items with
  | nil => intro i g v g' v' h; simp at h
  | cons s rest ih =>
    intro i g v g' v' h
    cases i with
    | zero =>
      simp only [List.getElem?_cons_zero, Option.some.injEq] at h
      subst h
      simp [countOccupied]
    | succ n =>
      simp only [List.getElem?_cons_succ] at h
      cases s <;> simp [countOccupied, List.set, ih g' v' h]

theorem countOccupied_eq_zero {l : List (Slot T)}
    (h : ∀ s ∈ l, ∃ nf, s = Slot.Free nf) : countOccupied l = 0 := by
  induction l with
  | nil => rfl
  | cons s rest ih =>
    obtain ⟨nf, rfl⟩ := h s (List.mem_cons_self s rest)
    exact ih fun t ht => h t (List.mem_cons_of_mem _ ht)

theorem freeChain_mem_free {items : List (Slot T)} :
    ∀ {head : Option Nat} {fl : List Nat}, FreeChain items head fl →
      ∀ {j : Nat}, j ∈ fl → ∃ nf, items[j]? = some (Slot.Free nf) := by
  intro head fl
  induction fl generalizing head with
  | nil => intro _ j hj; simp at hj
  | cons k rest ih =>
    intro hc j hj
    obtain ⟨hh, nf, hk, hrest⟩ := hc
    rcases List.mem_cons.mp hj with h | h
    · exact ⟨nf, h ▸ hk⟩
    · exact ih hrest h

theorem freeChain_set {items : List (Slot T)} {i : Nat} (s : Slot T) :
    ∀ {head : Option Nat} {fl : List Nat}, FreeChain items head fl → i ∉ fl →
      FreeChain (items.set i s) head fl := by
  intro head fl
  induction fl generalizing head with
  | nil => intro hc _; exact hc
  | cons j rest ih =>
    intro hc hi
    obtain ⟨hh, nf, hj, hrest⟩ := hc
    refine ⟨hh, nf, ?_, ih hrest fun hm => hi (List.mem_cons_of_mem _ hm)⟩
    rw [List.getElem?_set_ne]
    · exact hj
    · intro e
      exact hi (e ▸ List.mem_cons_self j rest)

theorem initialize_slots_getElem (N i : Nat) (hi : i < N) :
    (initialize_slots T N)[i]? =
      some (Slot.Free (if i = N - 1 then none else some (i + 1))) := by
  simp only [initialize_slots, List.getElem?_map, List.getElem?_range hi,
    Option.map_some']
  split <;> simp

theorem initialize_slots_length (N : Nat) :
    (initialize_slots T N).length = N := by
  simp [initialize_slots]

theorem initChain (T : Type) (N : Nat) :
    ∀ m k, k + m = N →
      FreeChain (initialize_slots T N) (if m = 0 then none else some k)
        (List.range' k m) := by
  intro m
  induction m with
  | zero =>
    intro k _
    simp [FreeChain, List.range']
  | succ m ih =>
    intro k hk
    rw [List.range'_succ]
    refine ⟨by simp, if k = N - 1 then none else some (k + 1),
      initialize_slots_getElem N k (by omega), ?_⟩
    have he : (if k = N - 1 then (none : Option Nat) else some (k + 1)) =
        (if m = 0 then none else some (k + 1)) := by
      by_cases hm : m = 0
      · have : k = N - 1 := by omega
        simp [hm, this]
      · have : k ≠ N - 1 := by omega
        simp [hm, this]
    rw [he]
    exact ih (k + 1) (by omega)

theorem new_inv {N : Nat} {a : GenerationalArena T} (h : new T N = some a) :
    Inv N a := by
  unfold new at h
  split at h
  · exact absurd h (by simp)
  · rename_i hN
    injection h with h
    subst h
    refine ⟨initialize_slots_length N, ?_, ?_, List.range N, ?_, List.nodup_range N, ?_⟩
    · intro i g v hi
      rcases Nat.lt_or_ge i N with hlt | hge
      · rw [initialize_slots_getElem N i hlt] at hi
        simp at hi
      · rw [List.getElem?_eq_none (by rw [initialize_slots_length]; exact hge)] at hi
        simp at hi
    · refine (countOccupied_eq_zero ?_).symm
      intro s hs
      simp only [initialize_slots, List.mem_map, List.mem_range] at hs
      obtain ⟨i, _, rfl⟩ := hs
      split
      · exact ⟨none, rfl⟩
      · exact ⟨some (i + 1), rfl⟩
    · have := initChain T N N 0 (by omega)
      rw [if_neg hN] at this
      rw [List.range_eq_range']
      exact this
    · intro j nf hj
      rw [List.mem_range]
      have := getElem_some_lt hj
      rwa [initialize_slots_length] at this

theorem try_insert_eq {a a' : GenerationalArena T} {v : T} {r : GenerationIndex ⊕ T}
    (h : try_insert a v = some (r, a')) :
    (a.free_list_head = none ∧ r = Sum.inr v ∧ a' = a) ∨
    (∃ i nf, a.free_list_head = some i ∧ a.items[i]? = some (Slot.Free nf) ∧
      r = Sum.inl ⟨i, a.generation⟩ ∧
      a' = { items := a.items.set i (Slot.Occupied a.generation v)
             free_list_head := nf
             generation := a.generation
             len := a.len + 1 }) := by
  cases hh : a.free_list_head with
  | none =>
    simp only [try_insert, hh, Option.some.injEq, Prod.mk.injEq] at h
    exact Or.inl ⟨rfl, h.1.symm, h.2.symm⟩
  | some i =>
    cases hs : a.items[i]? with
    | none =>
      simp only [try_insert, hh, hs] at h
      exact Option.noConfusion h
    | some s =>
      cases s with
      | Occupied g w =>
        simp only [try_insert, hh, hs] at h
        exact Option.noConfusion h
      | Free nf =>
        simp only [try_insert, hh, hs, Option.some.injEq, Prod.mk.injEq] at h
        exact Or.inr ⟨i, nf, rfl, hs, h.1.symm, h.2.symm⟩

theorem remove_eq {N : Nat} {a a' : GenerationalArena T} {gi : GenerationIndex}
    {r : Option T} (h : remove N a gi = some (r, a')) :
    gi.index < N ∧
    ((∃ g v, a.items[gi.index]? = some (Slot.Occupied g v) ∧ gi.generation = g ∧
        r = some v ∧
        a' = { items := a.items.set gi.index (Slot.Free a.free_list_head)
               free_list_head := some gi.index
               generation := a.generation + 1
               len := a.len - 1 }) ∨
      (r = none ∧ a' = a)) := by
  by_cases hin : gi.index < N
  case neg =>
    simp only [remove, if_neg hin] at h
    exact Option.noConfusion h
  case pos =>
    refine ⟨hin, ?_⟩
    cases hs : a.items[gi.index]? with
    | none =>
      simp only [remove, if_pos hin, hs] at h
      exact Option.noConfusion h
    | some s =>
      cases s with
      | Free nf =>
        simp only [remove, if_pos hin, hs, Option.some.injEq, Prod.mk.injEq] at h
        exact Or.inr ⟨h.1.symm, h.2.symm⟩
      | Occupied g v =>
        by_cases hg : gi.generation = g
        · simp only [remove, if_pos hin, hs, if_pos hg, Option.some.injEq,
            Prod.mk.injEq] at h
          exact Or.inl ⟨g, v, rfl, hg, h.1.symm, h.2.symm⟩
        · simp only [remove, if_pos hin, hs, if_neg hg, Option.some.injEq,
            Prod.mk.injEq] at h
          exact Or.inr ⟨h.1.symm, h.2.symm⟩

theorem write_mut_eq (a : GenerationalArena T) (gi : GenerationIndex) (v : T) :
    (∃ g w, a.items[gi.index]? = some (Slot.Occupied g w) ∧ g = gi.generation ∧
      write_mut a gi v =
        { a with items := a.items.set gi.index (Slot.Occupied g v) }) ∨
    write_mut a gi v = a := by
  cases hs : a.items[gi.index]? with
  | none => exact Or.inr (by simp only [write_mut, hs])
  | some s =>
    cases s with
    | Free nf => exact Or.inr (by simp only [write_mut, hs])
    | Occupied g w =>
      by_cases hg : g = gi.generation
      · exact Or.inl ⟨g, w, rfl, hg, by simp only [write_mut, hs, if_pos hg]⟩
      · exact Or.inr (by simp only [write_mut, hs, if_neg hg])

theorem get_eq_occ {a : GenerationalArena T} {gi : GenerationIndex} {g : Nat}
    {v : T} (hs : a.items[gi.index]? = some (Slot.Occupied g v)) :
    get a gi = if g = gi.generation then some v else none := by
  unfold get
  rw [hs]

theorem get_eq_free {a : GenerationalArena T} {gi : GenerationIndex}
    {nf : Option Nat} (hs : a.items[gi.index]? = some (Slot.Free nf)) :
    get a gi = none := by
  unfold get
  rw [hs]

theorem get_eq_oob {a : GenerationalArena T} {gi : GenerationIndex}
    (hs : a.items[gi.index]? = none) : get a gi = none := by
  unfold get
  rw [hs]

theorem freeChain_cons_of_head {items : List (Slot T)} {i : Nat} {fl : List Nat}
    (h : FreeChain items (some i) fl) :
    ∃ fl', fl = i :: fl' ∧
      ∃ nf, items[i]? = some (Slot.Free nf) ∧ FreeChain items nf fl' := by
  cases fl with
  | nil => exact absurd h (by simp [FreeChain])
  | cons j rest =>
    obtain ⟨hh, nf, hj, hrest⟩ := h
    injection hh with e
    subst e
    exact ⟨rest, rfl, nf, hj, hrest⟩

theorem try_insert_inv {N : Nat} {a a' : GenerationalArena T} {v : T}
    {r : GenerationIndex ⊕ T} (hinv : Inv N a) (h : try_insert a v = some (r, a')) :
    Inv N a' := by
  obtain ⟨hlen, hgen, hcnt, fl, hchain, hnodup, hmem⟩ := hinv
  rcases try_insert_eq h with ⟨-, -, rfl⟩ | ⟨i, nf, hh, hs, -, rfl⟩
  · exact ⟨hlen, hgen, hcnt, fl, hchain, hnodup, hmem⟩
  · rw [hh] at hchain
    obtain ⟨fl', rfl, nf2, hslot2, hrest⟩ := freeChain_cons_of_head hchain
    obtain rfl : nf2 = nf := by
      rw [hs] at hslot2
      injection hslot2 with e
      injection e with e2
      exact e2.symm
    have hi_not : i ∉ fl' := (List.nodup_cons.mp hnodup).1
    refine ⟨by simpa using hlen, ?_, ?_, fl', freeChain_set _ hrest hi_not,
      (List.nodup_cons.mp hnodup).2, ?_⟩
    · intro j g w hj
      by_cases hij : i = j
      · subst hij
        rw [List.getElem?_set_self (getElem_some_lt hs)] at hj
        injection hj with e
        injection e with e1 e2
        show g ≤ a.generation
        omega
      · rw [List.getElem?_set_ne hij] at hj
        exact hgen j g w hj
    · show a.len + 1 = countOccupied (a.items.set i (Slot.Occupied a.generation v))
      rw [countOccupied_set_free_occ a.generation v hs, hcnt]
    · intro j nfj hj
      by_cases hij : i = j
      · subst hij
        rw [List.getElem?_set_self (getElem_some_lt hs)] at hj
        simp at hj
      · rw [List.getElem?_set_ne hij] at hj
        have := hmem j nfj hj
        rcases List.mem_cons.mp this with e | e
        · exact absurd e.symm hij
        · exact e

theorem remove_inv {N : Nat} {a a' : GenerationalArena T} {gi : GenerationIndex}
    {r : Option T} (hinv : Inv N a) (h : remove N a gi = some (r, a')) :
    Inv N a' := by
  obtain ⟨hlen, hgen, hcnt, fl, hchain, hnodup, hmem⟩ := hinv
  rcases remove_eq h with ⟨hin, ⟨g, v, hs, hg, -, rfl⟩ | ⟨-, rfl⟩⟩
  · have hidx_not : gi.index ∉ fl := by
      intro hm
      obtain ⟨nf', hnf'⟩ := freeChain_mem_free hchain hm
      rw [hs] at hnf'
      simp at hnf'
    refine ⟨by simpa using hlen, ?_, ?_, gi.index :: fl,
      ⟨rfl, a.free_list_head, List.getElem?_set_self (getElem_some_lt hs),
        freeChain_set _ hchain hidx_not⟩,
      List.nodup_cons.mpr ⟨hidx_not, hnodup⟩, ?_⟩
    · intro j g' w hj
      by_cases hij : gi.index = j
      · subst hij
        rw [List.getElem?_set_self (getElem_some_lt hs)] at hj
        simp at hj
      · rw [List.getElem?_set_ne hij] at hj
        exact Nat.le_succ_of_le (hgen j g' w hj)
    · show a.len - 1 = countOccupied (a.items.set gi.index (Slot.Free a.free_list_head))
      have h2 := countOccupied_set_occ_free a.free_list_head hs
      omega
    · intro j nfj hj
      by_cases hij : gi.index = j
      · subst hij
        exact List.mem_cons_self _ _
      · rw [List.getElem?_set_ne hij] at hj
        exact List.mem_cons_of_mem _ (hmem j nfj hj)
  · exact ⟨hlen, hgen, hcnt, fl, hchain, hnodup, hmem⟩

theorem write_mut_inv {N : Nat} {a : GenerationalArena T} {gi : GenerationIndex}
    {v : T} (hinv : Inv N a) : Inv N (write_mut a gi v) := by
  obtain ⟨hlen, hgen, hcnt, fl, hchain, hnodup, hmem⟩ := hinv
  rcases write_mut_eq a gi v with ⟨g, w, hs, hg, he⟩ | he
  · rw [he]
    have hidx_not : gi.index ∉ fl := by
      intro hm
      obtain ⟨nf', hnf'⟩ := freeChain_mem_free hchain hm
      rw [hs] at hnf'
      simp at hnf'
    refine ⟨by simpa using hlen, ?_, ?_, fl, freeChain_set _ hchain hidx_not,
      hnodup, ?_⟩
    · intro j g' w' hj
      by_cases hij : gi.index = j
      · subst hij
        rw [List.getElem?_set_self (getElem_some_lt hs)] at hj
        injection hj with e
        injection e with e1 e2
        exact e1 ▸ hgen gi.index g w hs
      · rw [List.getElem?_set_ne hij] at hj
        exact hgen j g' w' hj
    · show a.len = countOccupied (a.items.set gi.index (Slot.Occupied g v))
      rw [countOccupied_set_occ_occ g v hs]
      exact hcnt
    · intro j nfj hj
      by_cases hij : gi.index = j
      · subst hij
        rw [List.getElem?_set_self (getElem_some_lt hs)] at hj
        simp at hj
      · rw [List.getElem?_set_ne hij] at hj
        exact hmem j nfj hj
  · rw [he]
    exact ⟨hlen, hgen, hcnt, fl, hchain, hnodup, hmem⟩

theorem step_inv {N : Nat} {a a' : GenerationalArena T} {op : Op T}
    (hinv : Inv N a) (h : step N a op = some a') : Inv N a' := by
  cases op with
  | ins v =>
    simp only [step, Option.map_eq_some'] at h
    obtain ⟨⟨r, b⟩, hp, hb⟩ := h
    cases hb
    exact try_insert_inv hinv hp
  | rem gi =>
    simp only [step, Option.map_eq_some'] at h
    obtain ⟨⟨r, b⟩, hp, hb⟩ := h
    cases hb
    exact remove_inv hinv hp
  | wr gi v =>
    injection h with h
    exact h ▸ write_mut_inv hinv
  | qget gi =>
    injection h with h
    exact h ▸ hinv
  | qget_mut gi =>
    injection h with h
    exact h ▸ hinv
  | qcontains gi =>
    injection h with h
    exact h ▸ hinv

theorem run_inv {N : Nat} :
    ∀ {ops : List (Op T)} {a a' : GenerationalArena T},
      Inv N a → run N a ops = some a' → Inv N a' := by
  intro ops
  induction ops with
  | nil =>
    intro a a' hi h
    injection h with h
    exact h ▸ hi
  | cons op rest ih =>
    intro a a' hi h
    simp only [run] at h
    cases hst : step N a op with
    | none => rw [hst] at h; exact Option.noConfusion h
    | some b => rw [hst] at h; exact ih (step_inv hi hst) h

theorem reachable_inv {N : Nat} {a : GenerationalArena T} (h : Reachable N a) :
    Inv N a := by
  obtain ⟨a0, ops, h0, hrun⟩ := h
  exact run_inv (new_inv h0) hrun

theorem step_generation_le {N : Nat} {a a' : GenerationalArena T} {op : Op T}
    (h : step N a op = some a') : a.generation ≤ a'.generation := by
  cases op with
  | ins v =>
    simp only [step, Option.map_eq_some'] at h
    obtain ⟨⟨r, b⟩, hp, hb⟩ := h
    cases hb
    rcases try_insert_eq hp with ⟨-, -, rfl⟩ | ⟨i, nf, hh, hs, he, rfl⟩ <;> simp
  | rem gi =>
    simp only [step, Option.map_eq_some'] at h
    obtain ⟨⟨r, b⟩, hp, hb⟩ := h
    cases hb
    rcases remove_eq hp with ⟨-, ⟨g, v, hs, hg, he, rfl⟩ | ⟨he, rfl⟩⟩ <;> simp
  | wr gi v =>
    injection h with h
    rcases write_mut_eq a gi v with ⟨g, w, hs, hg, he⟩ | he <;> rw [he] at h <;>
      exact h ▸ le_refl _
  | qget gi => injection h with h; exact h ▸ le_refl _
  | qget_mut gi => injection h with h; exact h ▸ le_refl _
  | qcontains gi => injection h with h; exact h ▸ le_refl _

theorem step_stale {N : Nat} {a a' : GenerationalArena T} {op : Op T}
    {gi : GenerationIndex} (hst : Stale a gi) (h : step N a op = some a') :
    Stale a' gi := by
  obtain ⟨hget, hlt⟩ := hst
  have hlt' : gi.generation < a'.generation :=
    Nat.lt_of_lt_of_le hlt (step_generation_le h)
  refine ⟨?_, hlt'⟩
  cases op with
  | ins v =>
    simp only [step, Option.map_eq_some'] at h
    obtain ⟨⟨r, b⟩, hp, hb⟩ := h
    cases hb
    rcases try_insert_eq hp with ⟨-, -, rfl⟩ | ⟨i, nf, hh, hs, he, rfl⟩
    · exact hget
    · by_cases hij : i = gi.index
      · have hs2 : (a.items.set i (Slot.Occupied a.generation v))[gi.index]? =
            some (Slot.Occupied a.generation v) := by
          rw [← hij]
          exact List.getElem?_set_self (getElem_some_lt hs)
        rw [get_eq_occ hs2, if_neg (by omega)]
      · unfold get at hget ⊢
        show (match (a.items.set i (Slot.Occupied a.generation v))[gi.index]? with
          | some (Slot.Occupied g v) => if g = gi.generation then some v else none
          | _ => none) = none
        rw [List.getElem?_set_ne hij]
        exact hget
  | rem gj =>
    simp only [step, Option.map_eq_some'] at h
    obtain ⟨⟨r, b⟩, hp, hb⟩ := h
    cases hb
    rcases remove_eq hp with ⟨-, ⟨g, v, hs, hg, he, rfl⟩ | ⟨he, rfl⟩⟩
    · by_cases hij : gj.index = gi.index
      · have hs4 : (a.items.set gj.index (Slot.Free a.free_list_head))[gi.index]? =
            some (Slot.Free a.free_list_head) := by
          rw [← hij]
          exact List.getElem?_set_self (getElem_some_lt hs)
        exact get_eq_free hs4
      · unfold get at hget ⊢
        show (match (a.items.set gj.index (Slot.Free a.free_list_head))[gi.index]? with
          | some (Slot.Occupied g v) => if g = gi.generation then some v else none
          | _ => none) = none
        rw [List.getElem?_set_ne hij]
        exact hget
    · exact hget
  | wr gj v =>
    injection h with h
    subst h
    rcases write_mut_eq a gj v with ⟨g, w, hs, hg, he⟩ | he
    · rw [he]
      by_cases hij : gj.index = gi.index
      · have hgne : ¬g = gi.generation := by
          intro e
          rw [hij] at hs
          rw [get_eq_occ hs, if_pos e] at hget
          exact Option.noConfusion hget
        have hs3 : (a.items.set gj.index (Slot.Occupied g v))[gi.index]? =
            some (Slot.Occupied g v) := by
          rw [← hij]
          exact List.getElem?_set_self (getElem_some_lt hs)
        rw [get_eq_occ hs3, if_neg hgne]
      · unfold get at hget ⊢
        show (match (a.items.set gj.index (Slot.Occupied g v))[gi.index]? with
          | some (Slot.Occupied g v) => if g = gi.generation then some v else none
          | _ => none) = none
        rw [List.getElem?_set_ne hij]
        exact hget
    · rw [he]
      exact hget
  | qget gj => injection h with h; exact h ▸ hget
  | qget_mut gj => injection h with h; exact h ▸ hget
  | qcontains gj => injection h with h; exact h ▸ hget

theorem run_stale {N : Nat} {gi : GenerationIndex} :
    ∀ {ops : List (Op T)} {a a' : GenerationalArena T},
      Stale a gi → run N a ops = some a' → Stale a' gi := by
  intro ops
  induction ops with
  | nil =>
    intro a a' hs h
    injection h with h
    exact h ▸ hs
  | cons op rest ih =>
    intro a a' hs h
    simp only [run] at h
    cases hst : step N a op with
    | none => rw [hst] at h; exact Option.noConfusion h
    | some b => rw [hst] at h; exact ih (step_stale hs hst) h

theorem countOccupied_le_length (l : List (Slot T)) :
    countOccupied l ≤ l.length := by
  induction l with
  | nil => exact Nat.le_refl 0
  | cons s rest ih => cases s <;> simp [countOccupied] <;> omega

theorem new_fresh {N : Nat} {a : GenerationalArena T} (h : new T N = some a) :
    FreshInserted N 0 a := by
  unfold new at h
  split at h
  · exact absurd h (by simp)
  · rename_i hN
    injection h with h
    subst h
    refine ⟨initialize_slots_length N, ?_, ?_⟩
    · rw [if_pos (by omega)]
    · intro i h0 hiN
      exact initialize_slots_getElem N i hiN

theorem fresh_insert {N j : Nat} {a : GenerationalArena T}
    (hf : FreshInserted N j a) (hj : j < N) (v : T) :
    ∃ a', try_insert a v = some (Sum.inl ⟨j, a.generation⟩, a') ∧
      FreshInserted N (j + 1) a' := by
  obtain ⟨hlen, hhead, hslots⟩ := hf
  have hhead2 : a.free_list_head = some j := by rw [hhead, if_pos hj]
  have hslotj := hslots j (Nat.le_refl j) hj
  refine ⟨{ items := a.items.set j (Slot.Occupied a.generation v)
            free_list_head := if j = N - 1 then none else some (j + 1)
            generation := a.generation
            len := a.len + 1 }, ?_, ?_, ?_, ?_⟩
  · simp only [try_insert, hhead2, hslotj]
  · simp [hlen]
  · show (if j = N - 1 then none else some (j + 1)) =
      (if j + 1 < N then some (j + 1) else none)
    by_cases hj1 : j = N - 1
    · rw [if_pos hj1, if_neg (by omega)]
    · rw [if_neg hj1, if_pos (by omega)]
  · intro i hji hiN
    show (a.items.set j (Slot.Occupied a.generation v))[i]? = _
    rw [List.getElem?_set_ne (by omega)]
    exact hslots i (by omega) hiN

theorem insert_seq_fresh {N : Nat} :
    ∀ (vs : List T) (j : Nat) (a : GenerationalArena T),
      FreshInserted N j a → j + vs.length = N →
      ∃ a', insert_seq a vs = some a' ∧ FreshInserted N N a' := by
  intro vs
  induction vs with
  | nil =>
    intro j a hf hj
    have hjN : j = N := by simpa using hj
    exact ⟨a, rfl, hjN ▸ hf⟩
  | cons v vs ih =>
    intro j a hf hj
    have hjN : j < N := by
      simp only [List.length_cons] at hj
      omega
    obtain ⟨a', heq, hf'⟩ := fresh_insert hf hjN v
    obtain ⟨a'', hseq, hf''⟩ := ih (j + 1) a' hf' (by
      simp only [List.length_cons] at hj
      omega)
    refine ⟨a'', ?_, hf''⟩
    simp only [insert_seq, heq]
    exact hseq

/-- Claim C1 (Tombstone): for every handle `h` successfully removed from a
reachable arena, every later `get h` returns `none` and `contains h` returns
`false`, no matter what sequence of operations (insertions, removals, writes
through `get_mut`, and pure queries) follows — even if `h`'s slot position is
reoccupied by a new insertion. -/
theorem claim_C1_tombstone {T : Type} {N : Nat} {a a' a2 : GenerationalArena T}
    {h : GenerationIndex} {v : T} {ops : List (Op T)}
    (hr : Reachable N a) (hrem : remove N a h = some (some v, a'))
    (hrun : run N a' ops = some a2) :
    get a2 h = none ∧ contains a2 h = false := by
  obtain ⟨-, hgen, -, -⟩ := reachable_inv hr
  rcases remove_eq hrem with ⟨hin, ⟨g, w, hs, hg, he, rfl⟩ | ⟨he, -⟩⟩
  · have hgle : g ≤ a.generation := hgen h.index g w hs
    have hstale : Stale
        { items := a.items.set h.index (Slot.Free a.free_list_head)
          free_list_head := some h.index
          generation := a.generation + 1
          len := a.len - 1 } h := by
      refine ⟨get_eq_free (List.getElem?_set_self (getElem_some_lt hs)), ?_⟩
      show h.generation < a.generation + 1
      omega
    have hfin := run_stale hstale hrun
    refine ⟨hfin.1, ?_⟩
    show (get a2 h).isSome = false
    rw [hfin.1]
    rfl
  · exact absurd he (by simp)

/-- Witness for C1: in a capacity-1 arena, insert 42, remove its handle
`⟨0, 1⟩`, then re-insert 5 into the reused slot; the removed handle still
misses. -/
theorem claim_C1_tombstone_witness :
    get arena1reins ⟨0, 1⟩ = none ∧ contains arena1reins ⟨0, 1⟩ = false :=
  @claim_C1_tombstone Nat 1 arena1ins arena1rem arena1reins ⟨0, 1⟩ 42
    [Op.ins 5] ⟨arena1, [Op.ins 42], by decide, by decide⟩
    (by decide) (by decide)

/-- Claim C2 (Round-trip): in every reachable arena whose free list is
non-empty, `try_insert v` succeeds with some handle `h`, and `get h` on the
resulting state returns `some v`. -/
theorem claim_C2_roundtrip {T : Type} {N : Nat} {a : GenerationalArena T}
    (v : T) (hr : Reachable N a) (hne : a.free_list_head ≠ none) :
    ∃ (h : GenerationIndex) (a' : GenerationalArena T),
      try_insert a v = some (Sum.inl h, a') ∧ get a' h = some v := by
  obtain ⟨hlen, hgen, hcnt, fl, hchain, hnodup, hmem⟩ := reachable_inv hr
  cases hh : a.free_list_head with
  | none => exact absurd hh hne
  | some i =>
    rw [hh] at hchain
    obtain ⟨fl2, rfl, nf, hslot, hrest⟩ := freeChain_cons_of_head hchain
    refine ⟨⟨i, a.generation⟩,
      { items := a.items.set i (Slot.Occupied a.generation v)
        free_list_head := nf
        generation := a.generation
        len := a.len + 1 }, ?_, ?_⟩
    · simp only [try_insert, hh, hslot]
    · have hocc : (a.items.set i (Slot.Occupied a.generation v))[i]? =
          some (Slot.Occupied a.generation v) :=
        List.getElem?_set_self (getElem_some_lt hslot)
      rw [get_eq_occ hocc, if_pos rfl]

/-- Witness for C2: inserting 42 into the fresh capacity-1 arena. -/
theorem claim_C2_roundtrip_witness :
    ∃ (h : GenerationIndex) (a' : GenerationalArena Nat),
      try_insert arena1 42 = some (Sum.inl h, a') ∧ get a' h = some 42 :=
  @claim_C2_roundtrip Nat 1 arena1 42 ⟨arena1, [], by decide, by decide⟩
    (by decide)

/-- Claim C3 (Stale-handle no-op): on a handle whose slot position is in
range but whose slot is `Free`, or `Occupied` under a different generation,
`remove` returns `None` and hands back the arena unchanged (slots, free-list
head, generation counter and live count all identical), and `get`, `get_mut`
and `contains` report absent — none of these panics. -/
theorem claim_C3_stale_noop {T : Type} {N : Nat} {a : GenerationalArena T}
    {h : GenerationIndex} (hin : h.index < N)
    (hstale : (∃ nf, a.items[h.index]? = some (Slot.Free nf)) ∨
      (∃ g v, a.items[h.index]? = some (Slot.Occupied g v) ∧ g ≠ h.generation)) :
    remove N a h = some (none, a) ∧ get a h = none ∧ get_mut a h = none ∧
      contains a h = false := by
  rcases hstale with ⟨nf, hs⟩ | ⟨g, v, hs, hne⟩
  · refine ⟨?_, get_eq_free hs, ?_, ?_⟩
    · simp only [remove, if_pos hin, hs]
    · unfold get_mut
      rw [hs]
    · show (get a h).isSome = false
      rw [get_eq_free hs]
      rfl
  · refine ⟨?_, ?_, ?_, ?_⟩
    · simp only [remove, if_pos hin, hs]
      rw [if_neg (Ne.symm hne)]
    · rw [get_eq_occ hs, if_neg hne]
    · unfold get_mut
      rw [hs]
      exact if_neg hne
    · show (get a h).isSome = false
      rw [get_eq_occ hs, if_neg hne]
      rfl

/-- Witness for C3: the stale handle `⟨0, 1⟩` on `arena1rem` (slot 0 is
`Free`), and the stale generation-mismatch handle `⟨0, 1⟩` on `arena1reins`
(slot 0 is `Occupied` under generation 2). -/
theorem claim_C3_stale_noop_witness :
    (remove 1 arena1rem ⟨0, 1⟩ = some (none, arena1rem) ∧
      get arena1rem ⟨0, 1⟩ = none ∧ get_mut arena1rem ⟨0, 1⟩ = none ∧
      contains arena1rem ⟨0, 1⟩ = false) ∧
    (remove 1 arena1reins ⟨0, 1⟩ = some (none, arena1reins) ∧
      get arena1reins ⟨0, 1⟩ = none ∧ get_mut arena1reins ⟨0, 1⟩ = none ∧
      contains arena1reins ⟨0, 1⟩ = false) :=
  ⟨claim_C3_stale_noop (by decide) (Or.inl ⟨none, by decide⟩),
   claim_C3_stale_noop (by decide) (Or.inr ⟨2, 5, by decide, by decide⟩)⟩

/-- Claim C4 (Capacity ceiling): from a freshly constructed arena of
capacity `N`, after exactly `N` successful insertions with no removals, the
next `try_insert w` fails, returning `w` itself to the caller with the arena
unchanged. -/
theorem claim_C4_capacity_ceiling {T : Type} {N : Nat}
    {a0 : GenerationalArena T} (vs : List T)
    (h0 : new T N = some a0) (hlen : vs.length = N) :
    ∃ a, insert_seq a0 vs = some a ∧
      ∀ w : T, try_insert a w = some (Sum.inr w, a) := by
  obtain ⟨a, hseq, hfull⟩ := insert_seq_fresh vs 0 a0 (new_fresh h0) (by omega)
  refine ⟨a, hseq, ?_⟩
  intro w
  obtain ⟨-, hhead, -⟩ := hfull
  rw [if_neg (Nat.lt_irrefl N)] at hhead
  simp only [try_insert, hhead]

/-- Witness for C4: filling the fresh two-slot arena with 40 and 41. -/
theorem claim_C4_capacity_ceiling_witness :
    ∃ a, insert_seq arena2 [40, 41] = some a ∧
      ∀ w : Nat, try_insert a w = some (Sum.inr w, a) :=
  @claim_C4_capacity_ceiling Nat 2 arena2 [40, 41] (by decide) (by decide)

/-- Claim C5 (Generation counter discipline): the counter starts at 1 at
construction; a removal that returns a value advances it by exactly 1 while a
removal that returns `None` leaves it unchanged; `try_insert` (successful or
not) leaves it unchanged; and writing through `get_mut` leaves it unchanged.
`get`, `get_mut`'s lookup and `contains` are pure functions of the state and
touch nothing. -/
theorem claim_C5_generation_discipline :
    (∀ (T : Type) (N : Nat) (a : GenerationalArena T),
      new T N = some a → a.generation = 1) ∧
    (∀ (T : Type) (N : Nat) (a a' : GenerationalArena T) (gi : GenerationIndex)
      (r : Option T), remove N a gi = some (r, a') →
      a'.generation = (if r.isSome then a.generation + 1 else a.generation)) ∧
    (∀ (T : Type) (a a' : GenerationalArena T) (v : T) (r : GenerationIndex ⊕ T),
      try_insert a v = some (r, a') → a'.generation = a.generation) ∧
    (∀ (T : Type) (a : GenerationalArena T) (gi : GenerationIndex) (v : T),
      (write_mut a gi v).generation = a.generation) := by
  refine ⟨?_, ?_, ?_, ?_⟩
  · intro T N a h
    unfold new at h
    split at h
    · exact absurd h (by simp)
    · injection h with h
      rw [← h]
  · intro T N a a' gi r h
    rcases remove_eq h with ⟨-, ⟨g, v, hs, hg, rfl, rfl⟩ | ⟨rfl, rfl⟩⟩
    · rfl
    · rfl
  · intro T a a' v r h
    rcases try_insert_eq h with ⟨-, -, rfl⟩ | ⟨i, nf, -, -, -, rfl⟩
    · rfl
    · rfl
  · intro T a gi v
    rcases write_mut_eq a gi v with ⟨g, w, -, -, he⟩ | he
    · rw [he]
    · rw [he]

/-- Witness for C5: the counter is 1 on the fresh one-slot arena, goes from
1 to 2 on the successful removal of `⟨0, 1⟩`, is untouched by the insertion
of 42 and by a write through `get_mut`. -/
theorem claim_C5_generation_discipline_witness :
    arena1.generation = 1 ∧
    arena1rem.generation =
      (if (some 42 : Option Nat).isSome then arena1ins.generation + 1
       else arena1ins.generation) ∧
    arena1ins.generation = arena1.generation ∧
    (write_mut arena1ins ⟨0, 1⟩ 7).generation = arena1ins.generation :=
  ⟨claim_C5_generation_discipline.1 Nat 1 arena1 (by decide),
   claim_C5_generation_discipline.2.1 Nat 1 arena1ins arena1rem ⟨0, 1⟩
     (some 42) (by decide),
   claim_C5_generation_discipline.2.2.1 Nat arena1 arena1ins 42
     (Sum.inl ⟨0, 1⟩) (by decide),
   claim_C5_generation_discipline.2.2.2 Nat arena1ins ⟨0, 1⟩ 7⟩

/-- Claim C6 (Occupancy reporting): in every reachable state, `capacity`
returns the live count, which equals the number of `Occupied` slots and is
at most `N`; and `capacity` does not report the slot count `N` — on the
freshly constructed two-slot arena it returns 0, not 2. -/
theorem claim_C6_capacity_reports_occupancy :
    (∀ (T : Type) (N : Nat) (a : GenerationalArena T), Reachable N a →
      capacity a = countOccupied a.items ∧ capacity a ≤ N) ∧
    (∀ b : GenerationalArena Nat, new Nat 2 = some b → capacity b ≠ 2) := by
  constructor
  · intro T N a hr
    obtain ⟨hlen, -, hcnt, -⟩ := reachable_inv hr
    refine ⟨hcnt, ?_⟩
    show a.len ≤ N
    rw [hcnt, ← hlen]
    exact countOccupied_le_length a.items
  · intro b hb
    have : b = arena2 := by
      have := hb
      rw [show new Nat 2 = some arena2 from by decide] at this
      injection this with e
      exact e.symm
    rw [this]
    decide

/-- Witness for C6: the fresh two-slot arena is reachable and its `capacity`
is 0, the count of its occupied slots. -/
theorem claim_C6_capacity_reports_occupancy_witness :
    (capacity arena2 = countOccupied arena2.items ∧ capacity arena2 ≤ 2) ∧
    capacity arena2 ≠ 2 :=
  ⟨claim_C6_capacity_reports_occupancy.1 Nat 2 arena2
     ⟨arena2, [], by decide, by decide⟩,
   claim_C6_capacity_reports_occupancy.2 arena2 (by decide)⟩

/-- Claim C7 (Construction): `new` with `N = 0` fails (the assertion
panics); for `N > 0` it produces an arena of exactly `N` slots, slot `i`
being `Free` linked to `i + 1` with the last slot linked to `none`, free-list
head at slot 0, generation counter 1 and live count 0. -/
theorem claim_C7_construction :
    (∀ T : Type, new T 0 = none) ∧
    (∀ (T : Type) (N : Nat), 0 < N →
      ∃ a : GenerationalArena T, new T N = some a ∧
        a.items.length = N ∧
        (∀ i, i < N → a.items[i]? =
          some (Slot.Free (if i = N - 1 then none else some (i + 1)))) ∧
        a.free_list_head = some 0 ∧ a.generation = 1 ∧ a.len = 0) := by
  constructor
  · intro T
    rfl
  · intro T N hN
    refine ⟨{ items := initialize_slots T N
              free_list_head := some 0
              generation := 1
              len := 0 }, ?_, initialize_slots_length N, ?_, rfl, rfl, rfl⟩
    · unfold new
      rw [if_neg (by omega)]
    · intro i hi
      exact initialize_slots_getElem N i hi

/-- Witness for C7: capacity 2. -/
theorem claim_C7_construction_witness :
    ∃ a : GenerationalArena Nat, new Nat 2 = some a ∧
      a.items.length = 2 ∧
      (∀ i, i < 2 → a.items[i]? =
        some (Slot.Free (if i = 2 - 1 then none else some (i + 1)))) ∧
      a.free_list_head = some 0 ∧ a.generation = 1 ∧ a.len = 0 :=
  claim_C7_construction.2 Nat 2 (by decide)

/-- Counterexample to C8: the claim says that removing an already-removed
handle and then querying it triggers the fatal (panicking) path. In the
code it does not: starting from the fresh one-slot arena, the whole sequence
insert 42, remove `⟨0, 1⟩`, remove `⟨0, 1⟩` again runs to completion (no
panic — `run` returns `some`, and the second `remove` is itself the
recoverable `some (none, ·)`), and the subsequent `get` returns `none`
rather than panicking. The panic in the source's `index_deleted_item` test
comes from the test calling `Option::unwrap` on that `None`, not from the
library. -/
theorem claim_C8_counterexample :
    new Nat 1 = some arena1 ∧
    run 1 arena1 [Op.ins 42, Op.rem ⟨0, 1⟩, Op.rem ⟨0, 1⟩] = some arena1rem ∧
    remove 1 arena1rem ⟨0, 1⟩ = some (none, arena1rem) ∧
    get arena1rem ⟨0, 1⟩ = none ∧
    contains arena1rem ⟨0, 1⟩ = false := by
  refine ⟨by decide, by decide, by decide, by decide, by decide⟩

/-- Amended C8: for a handle `h` already successfully removed from a
reachable arena, a second `remove h` is a recoverable no-op returning `None`
with the arena unchanged, and a subsequent `get h` returns `None`; the
fatal path is never taken by the library on this access pattern. -/
theorem claim_C8_double_remove_recoverable {T : Type} {N : Nat}
    {a a' : GenerationalArena T} {h : GenerationIndex} {v : T}
    (_hr : Reachable N a) (hrem : remove N a h = some (some v, a')) :
    remove N a' h = some (none, a') ∧ get a' h = none := by
  rcases remove_eq hrem with ⟨hin, ⟨g, w, hs, hg, he, rfl⟩ | ⟨he, -⟩⟩
  · have hfree : (a.items.set h.index (Slot.Free a.free_list_head))[h.index]? =
        some (Slot.Free a.free_list_head) :=
      List.getElem?_set_self (getElem_some_lt hs)
    constructor
    · simp only [remove, if_pos hin, hfree]
    · exact get_eq_free hfree
  · exact absurd he (by simp)

/-- Witness for amended C8: the double removal of `⟨0, 1⟩` in the
capacity-1 arena. -/
theorem claim_C8_double_remove_recoverable_witness :
    remove 1 arena1rem ⟨0, 1⟩ = some (none, arena1rem) ∧
    get arena1rem ⟨0, 1⟩ = none :=
  @claim_C8_double_remove_recoverable Nat 1 arena1ins arena1rem ⟨0, 1⟩ 42
    ⟨arena1, [Op.ins 42], by decide, by decide⟩ (by decide)

/-- Claim C9 (Implicit generation bound): in every reachable state, every
occupied slot's stamped generation is at most the arena's counter, and any
successful removal leaves the counter strictly above the removed handle's
generation. -/
theorem claim_C9_generation_bound {T : Type} {N : Nat}
    {a : GenerationalArena T} (hr : Reachable N a) :
    (∀ (i g : Nat) (v : T), a.items[i]? = some (Slot.Occupied g v) →
      g ≤ a.generation) ∧
    (∀ (h : GenerationIndex) (v : T) (a' : GenerationalArena T),
      remove N a h = some (some v, a') → h.generation < a'.generation) := by
  obtain ⟨-, hgen, -, -⟩ := reachable_inv hr
  refine ⟨hgen, ?_⟩
  intro h v a' hrem
  rcases remove_eq hrem with ⟨hin, ⟨g, w, hs, hg, he, rfl⟩ | ⟨he, -⟩⟩
  · have := hgen h.index g w hs
    show h.generation < a.generation + 1
    omega
  · exact absurd he (by simp)

/-- Witness for C9: the state `arena1ins` (42 inserted under generation 1)
and the removal of `⟨0, 1⟩` from it. -/
theorem claim_C9_generation_bound_witness :
    (∀ (i g : Nat) (v : Nat),
      arena1ins.items[i]? = some (Slot.Occupied g v) →
      g ≤ arena1ins.generation) ∧
    (∀ (h : GenerationIndex) (v : Nat) (a' : GenerationalArena Nat),
      remove 1 arena1ins h = some (some v, a') →
      h.generation < a'.generation) :=
  @claim_C9_generation_bound Nat 1 arena1ins
    ⟨arena1, [Op.ins 42], by decide, by decide⟩

/-- Claim C10 (Out-of-range handles): with the slot vector of length `N`, a
handle whose position is `≥ N` makes `get`, `get_mut` and `contains` report
absent without panicking, whereas `remove` hits its
`assert!(generation_index.index < ELEMENTS_COUNT)` and panics (modelled as
`none`) instead of returning a `None` value. -/
theorem claim_C10_out_of_range {T : Type} {N : Nat} {a : GenerationalArena T}
    {h : GenerationIndex} (hlen : a.items.length = N) (hout : N ≤ h.index) :
    get a h = none ∧ get_mut a h = none ∧ contains a h = false ∧
      remove N a h = none := by
  have hnone : a.items[h.index]? = none := List.getElem?_eq_none (by omega)
  refine ⟨get_eq_oob hnone, ?_, ?_, ?_⟩
  · unfold get_mut
    rw [hnone]
  · show (get a h).isSome = false
    rw [get_eq_oob hnone]
    rfl
  · unfold remove
    rw [if_neg (show ¬h.index < N by omega)]

/-- Witness for C10: the handle `⟨3, 1⟩` on the one-slot arena. -/
theorem claim_C10_out_of_range_witness :
    get arena1 ⟨3, 1⟩ = none ∧ get_mut arena1 ⟨3, 1⟩ = none ∧
    contains arena1 ⟨3, 1⟩ = false ∧ remove 1 arena1 ⟨3, 1⟩ = none :=
  claim_C10_out_of_range (by decide) (by decide)

end GenArena
